import Mathlib

/-!
Shallow embedding of `ufw_block_analyzer.py` (repository
`thiswillbeyourgithub/ufw_block_analyzer`).

The Python program tails a system journal, filters lines carrying the
literal marker `[UFW BLOCK]`, extracts `KEY=VALUE` pairs with the regex
`([A-Z]+)=([^\s]*)`, folds them into a dict with lower-cased keys,
correlates `br-`-prefixed interfaces with a Docker network registry,
removes a fixed denylist of technical fields, and emits the result when
it is truthy.

Python dicts are modelled as ordered association lists with
insertion-order preserving update (`dinsert`), `dict.get` (`dget?`),
`dict.pop` (`dpop`) and truthiness (non-emptiness).  Strings are Lean
`String`s; the Python string operations used by the program
(`startswith`, slicing, `split`, `strip`, `lower` on `[A-Z]`-only
input, substring containment) are re-implemented structurally on the
underlying character lists so that every definition is executable and
kernel-reducible.
-/

namespace UfwBlockAnalyzer

/-- ASCII uppercase test: exactly the character class `[A-Z]` of the
regex `([A-Z]+)=([^\s]*)` at line 104 of the source. -/
def isUpperAZ (c : Char) : Bool :=
  65 ≤ c.toNat && c.toNat ≤ 90

/-- Model of Python `str.lower` on a single character.  The program only
applies `.lower()` to regex captures of class `[A-Z]+`, for which Python
adds 32 to the code point; other characters are returned unchanged. -/
def lowerChar (c : Char) : Char :=
  if isUpperAZ c then Char.ofNat (c.toNat + 32) else c

/-- Model of Python `key.lower()` (line 114 of the source); faithful on
the keys the program produces, which match `[A-Z]+`. -/
def pyLower (s : String) : String :=
  (s.data.map lowerChar).asString

/-- Python whitespace class `\s` restricted to ASCII, used by the value
capture `[^\s]*` and by `str.strip()`. -/
def isPyWs (c : Char) : Bool :=
  c == ' ' || c == '\t' || c == '\n' || c == '\r' || c == '\x0b' || c == '\x0c'

/-- Python `s.startswith(t)`. -/
def sStartsWith (s t : String) : Bool :=
  t.data.isPrefixOf s.data

/-- Python slice `s[:n]`. -/
def sTake (s : String) (n : Nat) : String :=
  (s.data.take n).asString

/-- Python slice `s[n:]`. -/
def sDrop (s : String) (n : Nat) : String :=
  (s.data.drop n).asString

/-- Substring containment over character lists: Python `sub in l`. -/
def hasSub (l : List Char) (sub : List Char) : Bool :=
  match l with
  | [] => sub.isEmpty
  | _ :: tl => sub.isPrefixOf l || hasSub tl sub

/-- Python `line.strip()` restricted to ASCII whitespace. -/
def pyStrip (s : String) : String :=
  (((s.data.dropWhile isPyWs).reverse.dropWhile isPyWs).reverse).asString

/-! ### Python dict model -/

/-- Ordered association list standing for a Python `dict` with `String`
keys: first-insertion order, at most one binding per key in every dict
the program builds. -/
abbrev AssocDict (α : Type) := List (String × α)

/-- Python `d[k] = v`: update the value in place when the key exists,
otherwise append the new binding at the end (insertion order). -/
def dinsert {α : Type} (d : AssocDict α) (k : String) (v : α) : AssocDict α :=
  match d with
  | [] => [(k, v)]
  | p :: tl => if p.1 = k then (k, v) :: tl else p :: dinsert tl k v

/-- Python `d.get(k)` returning `None` as `none`. -/
def dget? {α : Type} (d : AssocDict α) (k : String) : Option α :=
  (d.find? (fun p => decide (p.1 = k))).map (fun p => p.2)

/-- Python `k in d`. -/
def dcontains {α : Type} (d : AssocDict α) (k : String) : Bool :=
  d.any (fun p => decide (p.1 = k))

/-- Python `d.pop(k, None)` seen through its effect on the dict. -/
def dpop {α : Type} (d : AssocDict α) (k : String) : AssocDict α :=
  d.filter (fun p => decide (p.1 ≠ k))

/-- The parsed field sets of the program map field names to strings. -/
abbrev Dict := AssocDict String

/-! ### The regex scan `re.findall(r"([A-Z]+)=([^\s]*)", line)` -/

/-- State of the left-to-right scanner implementing the leftmost,
non-overlapping, greedy matching of `re.findall` for the pattern
`([A-Z]+)=([^\s]*)`: either outside any candidate match, inside a run
of uppercase letters, or inside the value capture (`acc` reversed). -/
inductive ScanState : Type where
  | idle : ScanState
  | key (acc : List Char) : ScanState
  | val (k : List Char) (acc : List Char) : ScanState

/-- One-pass scanner for `([A-Z]+)=([^\s]*)`.  A maximal uppercase run
immediately followed by `=` opens a match (greedy `[A-Z]+` cannot
backtrack into a successful shorter match because every proper prefix of
the run ends before an uppercase letter, not `=`); the value capture
greedily takes all following non-whitespace; scanning resumes after the
value, which yields exactly the non-overlapping `findall` matches. -/
def scanGo : ScanState → List Char → List (String × String)
  | .idle, [] => []
  | .key _, [] => []
  | .val k acc, [] => [(k.asString, acc.reverse.asString)]
  | .idle, c :: cs =>
      if isUpperAZ c then scanGo (.key [c]) cs else scanGo .idle cs
  | .key acc, c :: cs =>
      if isUpperAZ c then scanGo (.key (acc ++ [c])) cs
      else if c = '=' then scanGo (.val acc []) cs
      else scanGo .idle cs
  | .val k acc, c :: cs =>
      if isPyWs c then (k.asString, acc.reverse.asString) :: scanGo .idle cs
      else scanGo (.val k (c :: acc)) cs

/-- `re.findall(r"([A-Z]+)=([^\s]*)", line)` (line 104-105 of the
source): the list of `(KEY, VALUE)` capture pairs in order. -/
def findallKV (l : List Char) : List (String × String) :=
  scanGo .idle l

/-- Invariant carried by the scanner state: any pending key is a
non-empty run of uppercase letters. -/
def stOk : ScanState → Prop
  | .idle => True
  | .key acc => acc ≠ [] ∧ ∀ c ∈ acc, isUpperAZ c = true
  | .val k _ => k ≠ [] ∧ ∀ c ∈ k, isUpperAZ c = true

/-- Lines 112-114 of the source: fold the capture pairs into a dict with
lower-cased keys; a later duplicate key overwrites the earlier value. -/
def foldPairs (ps : List (String × String)) : Dict :=
  ps.foldl (fun d p => dinsert d (pyLower p.1) p.2) []

/-- Value of the last capture pair whose lower-cased key is `k`
("duplicate keys: last occurrence wins"), `none` when no pair has that
key. -/
def lastVal (ps : List (String × String)) (k : String) : Option String :=
  match ps with
  | [] => none
  | p :: tl =>
      match lastVal tl k with
      | some v => some v
      | none => if pyLower p.1 = k then some p.2 else none

/-! ### parse_ufw_block_line -/

/-- The literal marker the program looks for (line 100). -/
def ufwMarker : String := "[UFW BLOCK]"

/-- Python `"[UFW BLOCK]" in line`. -/
def hasMarker (line : String) : Bool :=
  hasSub line.data ufwMarker.data

/-- Lines 100-114 of `parse_ufw_block_line`: the field-extraction stage.
`none` when the marker is absent or when no `KEY=VALUE` pair matched
(the latter case also logs a warning). -/
def extractFields (line : String) : Option Dict :=
  if hasMarker line then
    if (findallKV line.data).isEmpty then none
    else some (foldPairs (findallKV line.data))
  else none

/-- Metadata stored per Docker network (lines 60-64 of the source). -/
structure NetInfo : Type where
  name : String
  project : String
  id : String
deriving DecidableEq

/-- The Docker network registry: network-identifier 12-character
beginnings mapped to their metadata, in dict insertion order. -/
abbrev Registry := AssocDict NetInfo

/-- Line 117 of the source:
`interface = parsed_data.get("in") or parsed_data.get("out", "")`.
Python `or` falls through on falsy values, so a present-but-empty
`"in"` value selects the `"out"` value (or `""`). -/
def selectInterface (d : Dict) : String :=
  match dget? d "in" with
  | some s => if s = "" then (dget? d "out").getD "" else s
  | none => (dget? d "out").getD ""

/-- Lines 116-127 of the source: when the selected interface starts with
`br-`, strip the 3-character bridge marker and look the remainder up in
the registry by `network_id.startswith(net_prefix)`; the first matching
entry (dict iteration order) wins, and a miss stores the two literal
`"unknown"` values.  Non-bridge interfaces leave the dict untouched. -/
def enrichDocker (d : Dict) (docker_networks : Registry) : Dict :=
  if sStartsWith (selectInterface d) "br-" then
    match docker_networks.find?
        (fun p => sStartsWith (sDrop (selectInterface d) 3) p.1) with
    | some p =>
        dinsert (dinsert d "DockerProject" p.2.project) "DockerNetwork" p.2.name
    | none =>
        dinsert (dinsert d "DockerProject" "unknown") "DockerNetwork" "unknown"
  else d

/-- Line 130 of the source: the fixed denylist of technical fields. -/
def keys_to_remove : List String :=
  ["len", "tos", "prec", "id", "ttl", "window", "res", "urgp"]

/-- Lines 131-132 of the source: pop every denylist key. -/
def removeDenylist (d : Dict) : Dict :=
  keys_to_remove.foldl (fun acc k => dpop acc k) d

/-- `parse_ufw_block_line` (lines 77-134): extraction, Docker
enrichment, then denylist removal. -/
def parse_ufw_block_line (line : String) (docker_networks : Registry) :
    Option Dict :=
  match extractFields line with
  | none => none
  | some d => some (removeDenylist (enrichDocker d docker_networks))

/-! ### get_docker_networks -/

/-- One JSON object printed by `docker network ls --format json`; each
field is `none` when the key is absent (the source reads them with
`network.get("ID", "")`, `network.get("Name", "unknown")`,
`network.get("Labels", "")`). -/
structure DockerNetJson : Type where
  ID : Option String
  Name : Option String
  Labels : Option String
deriving DecidableEq

/-- One line of the enumeration's standard output after
`strip().split("\n")`: empty (skipped by `if line:`), JSON that
`json.loads` rejects, or a parsed object. -/
inductive EnumLine : Type where
  | emptyLine : EnumLine
  | badJson : EnumLine
  | good (j : DockerNetJson) : EnumLine

/-- Outcome of `subprocess.run(["sudo", "docker", "network", "ls",
"--format", "json"], ..., check=True)`: a `CalledProcessError` on
non-zero exit, or the stdout lines. -/
inductive EnumResult : Type where
  | failure (msg : String) : EnumResult
  | output (lines : List EnumLine) : EnumResult

/-- True on a stdout line that `json.loads` rejects. -/
def isBadLine : EnumLine → Bool
  | .badJson => true
  | _ => false

/-- The project-label marker scanned for at line 56 of the source. -/
def projectLabelTag : String := "com.docker.compose.project="

/-- Python `labels.split(",")` accumulator (current piece reversed). -/
def splitCommaGo : List Char → List Char → List String
  | acc, [] => [acc.reverse.asString]
  | acc, c :: cs =>
      if c = ',' then acc.reverse.asString :: splitCommaGo [] cs
      else splitCommaGo (c :: acc) cs

/-- Python `labels.split(",")`. -/
def splitComma (s : String) : List String :=
  splitCommaGo [] s.data

/-- Everything after the first `=`, or `none` when there is none:
the `[1]` component of Python `label.split("=", 1)` (the source only
evaluates it on labels that start with `projectLabelTag`, which
guarantees an `=`). -/
def splitEq1Go : List Char → Option (List Char)
  | [] => none
  | c :: cs => if c = '=' then some cs else splitEq1Go cs

/-- Python `label.split("=", 1)[1]` on labels known to contain `=`. -/
def splitEq1 (s : String) : String :=
  ((splitEq1Go s.data).getD []).asString

/-- Lines 52-58 of the source: default `"unknown"`, then the first
comma-separated label starting with the project tag supplies the part
after its first `=` (the loop `break`s on the first hit). -/
def labelProject (labels : String) : String :=
  if labels = "" then "unknown"
  else
    match (splitComma labels).find? (fun lab => sStartsWith lab projectLabelTag) with
    | some lab => splitEq1 lab
    | none => "unknown"

/-- Lines 46-64 of the source: the registry binding built from one
parsed enumeration entry. -/
def processEntry (j : DockerNetJson) : String × NetInfo :=
  let network_id := j.ID.getD ""
  (sTake network_id 12,
   ⟨j.Name.getD "unknown", labelProject (j.Labels.getD ""), network_id⟩)

/-- `get_docker_networks` (lines 23-74) with its I/O reified: the bool
records whether `logger.error` ran.  A `CalledProcessError` or a
`json.loads` failure anywhere (the exception aborts the loop and
discards every binding built so far) yields the empty registry with an
error logged; otherwise the non-empty lines are folded into the
registry dict in order. -/
def get_docker_networks : EnumResult → Registry × Bool
  | .failure _ => ([], true)
  | .output lines =>
      if lines.any isBadLine then ([], true)
      else
        (lines.foldl
          (fun nets l =>
            match l with
            | .good j => dinsert nets (processEntry j).1 (processEntry j).2
            | _ => nets) [],
         false)

/-! ### run_ufw_monitor, per line -/

/-- Lines 169-177 of `run_ufw_monitor` for a single delivered line:
skip falsy (empty) lines, parse `line.strip()`, and emit a record only
when the parse result is truthy — `None` and the empty dict are both
falsy in Python, so neither produces output. -/
def monitorEmits (line : String) (docker_networks : Registry) : Bool :=
  if line = "" then false
  else
    match parse_ufw_block_line (pyStrip line) docker_networks with
    | none => false
    | some d => !d.isEmpty

/-! ### Concrete inputs used to exercise the model -/

/-- The end-to-end example log line of the specification. -/
def exLine : String :=
  "Sep 1 00:00:00 host kernel: [UFW BLOCK] IN=br-abc123def456 OUT= SRC=10.0.0.5 DST=10.0.0.1 LEN=60 TTL=64 PROTO=TCP SPT=443 DPT=51000"

/-- The end-to-end example registry: `abc123def456` owned by project
`demo` with network name `net1`. -/
def exRegistry : Registry :=
  [("abc123def456", ⟨"net1", "demo", "abc123def456"⟩)]

/-- A block line whose `IN=` field is present but empty while `OUT=`
carries an interface name. -/
def emptyInLine : String := "[UFW BLOCK] IN= OUT=eth0 DPT=80"

/-- A block line all of whose extracted keys sit on the denylist. -/
def denylistOnlyLine : String :=
  "Oct 1 00:00:00 host kernel: [UFW BLOCK] LEN=60 TTL=64"

/-! ### Dictionary lemmas -/

theorem dget?_cons {α : Type} (p : String × α) (tl : AssocDict α)
    (q : String) :
    dget? (p :: tl) q = if p.1 = q then some p.2 else dget? tl q := by
  by_cases h : p.1 = q <;> simp [dget?, List.find?, h]

theorem dpop_cons {α : Type} (p : String × α) (tl : AssocDict α)
    (k : String) :
    dpop (p :: tl) k = if p.1 = k then dpop tl k else p :: dpop tl k := by
  by_cases h : p.1 = k <;> simp [dpop, List.filter, h]

theorem dget?_dinsert {α : Type} (d : AssocDict α) (k : String) (v : α)
    (q : String) :
    dget? (dinsert d k v) q = if q = k then some v else dget? d q := by
  induction d with
  | nil =>
      by_cases h : q = k
      · simp [dinsert, dget?_cons, h]
      · have h2 : ¬ k = q := fun hh => h hh.symm
        simp [dinsert, dget?_cons, h, h2, dget?]
  | cons p tl ih =>
      simp only [dinsert]
      by_cases hpk : p.1 = k
      · rw [if_pos hpk, dget?_cons]
        by_cases hq : q = k
        · simp [hq]
        · have h2 : ¬ k = q := fun hh => hq hh.symm
          have hpq : ¬ p.1 = q := by rw [hpk]; exact h2
          simp [hq, h2, dget?_cons, hpq]
      · rw [if_neg hpk, dget?_cons]
        by_cases hpq : p.1 = q
        · have hq : ¬ q = k := fun hh => hpk (hpq.trans hh)
          simp [hpq, hq, dget?_cons]
        · simp [hpq, ih, dget?_cons]

theorem dcontains_iff {α : Type} (d : AssocDict α) (k : String) :
    dcontains d k = true ↔ ∃ v, dget? d k = some v := by
  constructor
  · intro h
    have := List.any_eq_true.mp h
    rcases this with ⟨p, hp, hpk⟩
    have : (d.find? (fun p => decide (p.1 = k))).isSome :=
      List.find?_isSome.mpr ⟨p, hp, hpk⟩
    rcases Option.isSome_iff_exists.mp this with ⟨q, hq⟩
    exact ⟨q.2, by simp [dget?, hq]⟩
  · rintro ⟨v, hv⟩
    rcases Option.map_eq_some'.mp hv with ⟨p, hp, _⟩
    have hmem := List.mem_of_find?_eq_some hp
    have hpk := List.find?_some hp
    exact List.any_eq_true.mpr ⟨p, hmem, hpk⟩

theorem dget?_dpop {α : Type} (d : AssocDict α) (k : String) (q : String) :
    dget? (dpop d k) q = if q = k then none else dget? d q := by
  induction d with
  | nil => by_cases h : q = k <;> simp [dpop, dget?, h]
  | cons p tl ih =>
      rw [dpop_cons]
      by_cases hpk : p.1 = k
      · rw [if_pos hpk, ih]
        by_cases hq : q = k
        · simp [hq]
        · have hpq : ¬ p.1 = q := by
            rw [hpk]; exact fun hh => hq hh.symm
          simp [hq, dget?_cons, hpq]
      · rw [if_neg hpk, dget?_cons]
        by_cases hpq : p.1 = q
        · have hq : ¬ q = k := fun hh => hpk (hpq.trans hh)
          simp [hpq, hq, dget?_cons]
        · simp [hpq, ih, dget?_cons]

theorem dget?_foldPops (ks : List String) (d : Dict) (k : String) :
    dget? (ks.foldl (fun acc q => dpop acc q) d) k =
      if k ∈ ks then none else dget? d k := by
  induction ks generalizing d with
  | nil => simp
  | cons k0 tl ih =>
      simp only [List.foldl]
      rw [ih]
      by_cases h0 : k = k0
      · by_cases htl : k ∈ tl <;> simp [h0, htl, dget?_dpop]
      · by_cases htl : k ∈ tl <;> simp [h0, htl, dget?_dpop]

theorem dget?_removeDenylist (d : Dict) (k : String) :
    dget? (removeDenylist d) k =
      if k ∈ keys_to_remove then none else dget? d k :=
  dget?_foldPops keys_to_remove d k

theorem foldPops_eq_filter (ks : List String) (d : Dict) :
    ks.foldl (fun acc q => dpop acc q) d =
      d.filter (fun p => !ks.any (fun q => decide (p.1 = q))) := by
  induction ks generalizing d with
  | nil => simp
  | cons k0 tl ih =>
      simp only [List.foldl]
      rw [ih, dpop, List.filter_filter]
      apply List.filter_congr
      intro p _
      by_cases h0 : p.1 = k0 <;> simp [h0]

theorem dget?_foldl_dinsert (ps : List (String × String)) (d : Dict)
    (k : String) :
    dget? (ps.foldl (fun acc p => dinsert acc (pyLower p.1) p.2) d) k =
      match lastVal ps k with
      | some v => some v
      | none => dget? d k := by
  induction ps generalizing d with
  | nil => simp [lastVal]
  | cons p tl ih =>
      simp only [List.foldl, lastVal]
      rw [ih]
      cases htl : lastVal tl k with
      | some v => simp
      | none =>
          simp only
          rw [dget?_dinsert]
          by_cases h : pyLower p.1 = k
          · simp [h]
          · have h2 : ¬ k = pyLower p.1 := fun hh => h hh.symm
            simp [h, h2]

theorem dget?_foldPairs (ps : List (String × String)) (k : String) :
    dget? (foldPairs ps) k = lastVal ps k := by
  rw [foldPairs, dget?_foldl_dinsert]
  cases lastVal ps k <;> simp [dget?]

theorem lastVal_ne_none_iff (ps : List (String × String)) (k : String) :
    lastVal ps k ≠ none ↔ k ∈ ps.map (fun p => pyLower p.1) := by
  induction ps with
  | nil => simp [lastVal]
  | cons p tl ih =>
      simp only [lastVal, List.map, List.mem_cons]
      cases htl : lastVal tl k with
      | some v =>
          simp only
          constructor
          · intro _
            exact Or.inr (ih.mp (by simp [htl]))
          · intro _
            simp
      | none =>
          simp only
          rw [htl] at ih
          by_cases h : pyLower p.1 = k
          · simp [h]
          · have h2 : ¬ k = pyLower p.1 := fun hh => h hh.symm
            simp [h, h2, ih]

/-! ### Character and scanner lemmas -/

theorem data_asString (l : List Char) : (List.asString l).data = l := rfl

theorem isUpperAZ_iff (c : Char) :
    isUpperAZ c = true ↔ 65 ≤ c.toNat ∧ c.toNat ≤ 90 := by
  simp [isUpperAZ]

theorem toNat_lowerChar_of_upper {c : Char} (h : isUpperAZ c = true) :
    (lowerChar c).toNat = c.toNat + 32 := by
  have hb := (isUpperAZ_iff c).mp h
  have hv : (c.toNat + 32).isValidChar := Or.inl (by omega)
  rw [lowerChar, if_pos h]
  unfold Char.ofNat
  rw [dif_pos hv]
  unfold Char.ofNatAux Char.toNat
  simp [UInt32.toNat]

theorem scanGo_keys (l : List Char) :
    ∀ st, stOk st → ∀ p ∈ scanGo st l,
      p.1.data ≠ [] ∧ ∀ c ∈ p.1.data, isUpperAZ c = true := by
  induction l with
  | nil =>
      intro st hst p hp
      cases st with
      | idle => simp [scanGo] at hp
      | key acc => simp [scanGo] at hp
      | val k acc =>
          simp only [scanGo, List.mem_singleton] at hp
          subst hp
          simpa [data_asString, stOk] using hst
  | cons c cs ih =>
      intro st hst p hp
      cases st with
      | idle =>
          rw [scanGo] at hp
          by_cases hu : isUpperAZ c
          · rw [if_pos hu] at hp
            exact ih (.key [c]) (by simp [stOk, hu]) p hp
          · rw [if_neg hu] at hp
            exact ih .idle (by simp [stOk]) p hp
      | key acc =>
          have hst2 : acc ≠ [] ∧ ∀ d ∈ acc, isUpperAZ d = true := hst
          rw [scanGo] at hp
          by_cases hu : isUpperAZ c
          · rw [if_pos hu] at hp
            refine ih (.key (acc ++ [c])) ⟨by simp, ?_⟩ p hp
            intro d hd
            rcases List.mem_append.mp hd with h1 | h1
            · exact hst2.2 d h1
            · simp at h1; rw [h1]; exact hu
          · rw [if_neg hu] at hp
            by_cases he : c = '='
            · rw [if_pos he] at hp
              exact ih (.val acc []) hst2 p hp
            · rw [if_neg he] at hp
              exact ih .idle (by simp [stOk]) p hp
      | val k acc =>
          have hst2 : k ≠ [] ∧ ∀ d ∈ k, isUpperAZ d = true := hst
          rw [scanGo] at hp
          by_cases hw : isPyWs c
          · rw [if_pos hw] at hp
            rcases List.mem_cons.mp hp with h1 | h1
            · subst h1
              simpa [data_asString] using hst2
            · exact ih .idle (by simp [stOk]) p h1
          · rw [if_neg hw] at hp
            exact ih (.val k (c :: acc)) hst2 p hp

theorem findallKV_keys (l : List Char) :
    ∀ p ∈ findallKV l, p.1.data ≠ [] ∧ ∀ c ∈ p.1.data, isUpperAZ c = true :=
  scanGo_keys l .idle trivial

/-- The lower-casing of an all-uppercase key can never collide with the
title-case strings `"DockerProject"` and `"DockerNetwork"` the
enrichment step inserts: its first character has code point at least
97, while both literals start with `D` (code point 68). -/
theorem pyLower_ne_docker (s : String) (hne : s.data ≠ [])
    (hup : ∀ c ∈ s.data, isUpperAZ c = true) :
    pyLower s ≠ "DockerProject" ∧ pyLower s ≠ "DockerNetwork" := by
  cases hd : s.data with
  | nil => exact absurd hd hne
  | cons c tl =>
      have hc : isUpperAZ c = true := hup c (by rw [hd]; simp)
      have hlo : 97 ≤ (lowerChar c).toNat := by
        rw [toNat_lowerChar_of_upper hc]
        have := (isUpperAZ_iff c).mp hc
        omega
      constructor <;>
      · intro hcontra
        have hdata := congrArg String.data hcontra
        rw [pyLower, data_asString, hd] at hdata
        simp only [List.map] at hdata
        have hhead : lowerChar c = 'D' := by
          have := congrArg (fun l => l.head?) hdata
          simpa using this
        rw [hhead] at hlo
        simp at hlo

/-! ### Extraction and registry lemmas -/

theorem extractFields_eq (line : String) (d : Dict)
    (h : extractFields line = some d) :
    hasMarker line = true ∧ findallKV line.data ≠ [] ∧
      d = foldPairs (findallKV line.data) := by
  by_cases hm : hasMarker line
  · rw [extractFields, if_pos hm] at h
    by_cases hz : (findallKV line.data).isEmpty
    · rw [if_pos hz] at h; cases h
    · rw [if_neg hz] at h
      refine ⟨hm, ?_, (Option.some.inj h).symm⟩
      intro hnil
      exact hz (by simp [List.isEmpty_iff, hnil])
  · rw [extractFields, if_neg hm] at h; cases h

theorem splitEq1Go_tag_append (t : List Char) :
    splitEq1Go (projectLabelTag.data ++ t) = some t := rfl

theorem splitEq1_of_tag (lab : String)
    (h : sStartsWith lab projectLabelTag = true) :
    splitEq1 lab = sDrop lab 27 := by
  rcases List.isPrefixOf_iff_prefix.mp h with ⟨t, ht⟩
  rw [splitEq1, sDrop, ← ht, splitEq1Go_tag_append]
  have h27 : (27 : Nat) = projectLabelTag.data.length := rfl
  rw [h27, List.drop_left]
  rfl

theorem labelProject_eq (labels : String) :
    labelProject labels =
      match (splitComma labels).find?
          (fun lab => sStartsWith lab projectLabelTag) with
      | some lab => splitEq1 lab
      | none => "unknown" := by
  by_cases h : labels = ""
  · subst h; rfl
  · simp only [labelProject]
    rw [if_neg h]

/-! ### Claims -/

/-- C1, counterexample: on the exact end-to-end example line with the
registry mapping `abc123def456` to name `net1` and project `demo`, the
record returned by `parse_ufw_block_line` contains neither a
`dockerproject` nor a `dockernetwork` key — the claim's lowercase
enrichment keys do not occur (the code inserts title-case keys). -/
theorem C1_counterexample :
    (parse_ufw_block_line exLine exRegistry).map
        (fun d => dcontains d "dockerproject" || dcontains d "dockernetwork") =
      some false := by
  rfl

/-- C1, amended: on the exact end-to-end example line and registry,
`parse_ufw_block_line` returns a record holding exactly the keys
`in`, `out`, `src`, `dst`, `proto`, `spt`, `dpt`, `DockerProject`,
`DockerNetwork` (the enrichment keys are title-case, not lowercase)
with the listed values — `out` empty, `DockerProject=demo`,
`DockerNetwork=net1` — and no `len` or `ttl` key. -/
theorem C1_exact_example :
    parse_ufw_block_line exLine exRegistry =
      some [("in", "br-abc123def456"), ("out", ""), ("src", "10.0.0.5"),
        ("dst", "10.0.0.1"), ("proto", "TCP"), ("spt", "443"),
        ("dpt", "51000"), ("DockerProject", "demo"),
        ("DockerNetwork", "net1")] := by
  rfl

/-- C2: for every line containing the marker with at least one
well-formed `KEY=VALUE` pair, extraction returns a mapping whose value
at every key is the last captured value whose lower-cased key matches,
and whose key set is exactly the lower-cased forms of the uppercase
keys the scan finds in the line. -/
theorem C2_extraction_contract (line : String) (hm : hasMarker line = true)
    (hnz : findallKV line.data ≠ []) :
    ∃ m, extractFields line = some m ∧
      (∀ k, dget? m k = lastVal (findallKV line.data) k) ∧
      (∀ k, dcontains m k = true ↔
        k ∈ (findallKV line.data).map (fun p => pyLower p.1)) := by
  have hz : (findallKV line.data).isEmpty = false := by
    cases hq : (findallKV line.data).isEmpty
    · rfl
    · exact absurd (List.isEmpty_iff.mp hq) hnz
  refine ⟨foldPairs (findallKV line.data), ?_, ?_, ?_⟩
  · simp [extractFields, hm, hz]
  · intro k
    exact dget?_foldPairs _ _
  · intro k
    rw [dcontains_iff, ← lastVal_ne_none_iff]
    constructor
    · rintro ⟨v, hv⟩
      rw [dget?_foldPairs] at hv
      simp [hv]
    · intro hne
      rcases Option.ne_none_iff_exists'.mp hne with ⟨v, hv⟩
      exact ⟨v, by rw [dget?_foldPairs]; exact hv⟩

/-- C2, witness at the line `[UFW BLOCK] A=1 A=2 B=`: the duplicate key
`A` resolves to its last value `2` and the key set is `a`, `b`. -/
theorem C2_extraction_contract_witness :
    ∃ m, extractFields "[UFW BLOCK] A=1 A=2 B=" = some m ∧
      (∀ k, dget? m k = lastVal (findallKV "[UFW BLOCK] A=1 A=2 B=".data) k) ∧
      (∀ k, dcontains m k = true ↔
        k ∈ (findallKV "[UFW BLOCK] A=1 A=2 B=".data).map
          (fun p => pyLower p.1)) :=
  C2_extraction_contract "[UFW BLOCK] A=1 A=2 B=" (by rfl) (by decide)

/-- C3, counterexample: a parsed field set in which `in` is present with
the empty-string value selects the `out` interface `eth0`, not the
empty string the claim requires — Python's `or` treats the present but
empty `in` value as absent. -/
theorem C3_counterexample :
    extractFields emptyInLine =
        some [("in", ""), ("out", "eth0"), ("dpt", "80")] ∧
      dget? [("in", ""), ("out", "eth0"), ("dpt", "80")] "in" = some "" ∧
      selectInterface [("in", ""), ("out", "eth0"), ("dpt", "80")] = "eth0" ∧
      selectInterface [("in", ""), ("out", "eth0"), ("dpt", "80")] ≠ "" :=
  ⟨rfl, rfl, rfl, by decide⟩

/-- C3, amended: the interface name used for enrichment is the value of
`in` whenever that key is present with a non-empty value; otherwise
(key absent or value empty) it is the value of `out` if present, else
the empty string. -/
theorem C3_interface_selection (d : Dict) :
    (∀ s, dget? d "in" = some s → s ≠ "" → selectInterface d = s) ∧
    ((dget? d "in" = none ∨ dget? d "in" = some "") →
      (∀ s, dget? d "out" = some s → selectInterface d = s) ∧
      (dget? d "out" = none → selectInterface d = "")) := by
  constructor
  · intro s hs hne
    simp [selectInterface, hs, hne]
  · intro hor
    constructor
    · intro s hs
      rcases hor with h | h <;> simp [selectInterface, h, hs]
    · intro hout
      rcases hor with h | h <;> simp [selectInterface, h, hout]

/-- C3, witness: with `in` absent, the `out` value `eth1` is selected. -/
theorem C3_interface_selection_witness :
    selectInterface [("out", "eth1")] = "eth1" :=
  ((C3_interface_selection [("out", "eth1")]).2 (Or.inl (by rfl))).1
    "eth1" (by rfl)

/-- C4: when the selected interface of an extracted field set does not
begin with `br-`, the final record is the field set with only the
denylist removed, and it contains neither a `DockerProject` nor a
`DockerNetwork` key — the two keys are absent, not set to
`"unknown"`. -/
theorem C4_nonbridge_no_docker_fields (line : String) (nets : Registry)
    (d : Dict) (hx : extractFields line = some d)
    (hbr : sStartsWith (selectInterface d) "br-" = false) :
    parse_ufw_block_line line nets = some (removeDenylist d) ∧
    dcontains (removeDenylist d) "DockerProject" = false ∧
    dcontains (removeDenylist d) "DockerNetwork" = false := by
  obtain ⟨hm, hnz, hd⟩ := extractFields_eq line d hx
  have he : enrichDocker d nets = d := by
    rw [enrichDocker, if_neg]
    simp [hbr]
  have main : ∀ q : String, q ∉ keys_to_remove →
      (∀ s : String, s.data ≠ [] → (∀ c ∈ s.data, isUpperAZ c = true) →
        pyLower s ≠ q) →
      dcontains (removeDenylist d) q = false := by
    intro q hqk hq
    cases hc : dcontains (removeDenylist d) q with
    | false => rfl
    | true =>
        exfalso
        rcases (dcontains_iff _ _).mp hc with ⟨v, hv⟩
        rw [dget?_removeDenylist, if_neg hqk, hd, dget?_foldPairs] at hv
        have hne : lastVal (findallKV line.data) q ≠ none := by simp [hv]
        rcases List.mem_map.mp ((lastVal_ne_none_iff _ _).mp hne) with
          ⟨p, hp, hpq⟩
        have hk := findallKV_keys line.data p hp
        exact hq p.1 hk.1 hk.2 hpq
  refine ⟨?_, main "DockerProject" (by decide) ?_, main "DockerNetwork"
    (by decide) ?_⟩
  · simp [parse_ufw_block_line, hx, he]
  · intro s h1 h2
    exact (pyLower_ne_docker s h1 h2).1
  · intro s h1 h2
    exact (pyLower_ne_docker s h1 h2).2

/-- C4, witness at `[UFW BLOCK] IN=eth0 DPT=80` (interface `eth0`): the
output record carries no Docker key. -/
theorem C4_nonbridge_witness :
    parse_ufw_block_line "[UFW BLOCK] IN=eth0 DPT=80" [] =
        some (removeDenylist [("in", "eth0"), ("dpt", "80")]) ∧
      dcontains (removeDenylist [("in", "eth0"), ("dpt", "80")])
        "DockerProject" = false ∧
      dcontains (removeDenylist [("in", "eth0"), ("dpt", "80")])
        "DockerNetwork" = false :=
  C4_nonbridge_no_docker_fields "[UFW BLOCK] IN=eth0 DPT=80" [] _
    (by rfl) (by rfl)

/-- C5: for a bridge-style interface, a registry miss stores the
literal `"unknown"` in both `DockerProject` and `DockerNetwork`, and a
hit on the first registry entry (in iteration order) whose key begins
the stripped identifier stores that entry's project and name. -/
theorem C5_bridge_lookup (d : Dict) (nets : Registry)
    (hbr : sStartsWith (selectInterface d) "br-" = true) :
    (nets.find? (fun p => sStartsWith (sDrop (selectInterface d) 3) p.1) =
        none →
      dget? (removeDenylist (enrichDocker d nets)) "DockerProject" =
          some "unknown" ∧
      dget? (removeDenylist (enrichDocker d nets)) "DockerNetwork" =
          some "unknown") ∧
    (∀ q info,
      nets.find? (fun p => sStartsWith (sDrop (selectInterface d) 3) p.1) =
          some (q, info) →
      dget? (removeDenylist (enrichDocker d nets)) "DockerProject" =
          some info.project ∧
      dget? (removeDenylist (enrichDocker d nets)) "DockerNetwork" =
          some info.name) := by
  constructor
  · intro hf
    have he : enrichDocker d nets =
        dinsert (dinsert d "DockerProject" "unknown") "DockerNetwork"
          "unknown" := by
      rw [enrichDocker, if_pos hbr, hf]
    rw [he]
    constructor
    · rw [dget?_removeDenylist, if_neg (by decide), dget?_dinsert,
        if_neg (by decide), dget?_dinsert, if_pos rfl]
    · rw [dget?_removeDenylist, if_neg (by decide), dget?_dinsert,
        if_pos rfl]
  · intro q info hf
    have he : enrichDocker d nets =
        dinsert (dinsert d "DockerProject" info.project) "DockerNetwork"
          info.name := by
      rw [enrichDocker, if_pos hbr, hf]
    rw [he]
    constructor
    · rw [dget?_removeDenylist, if_neg (by decide), dget?_dinsert,
        if_neg (by decide), dget?_dinsert, if_pos rfl]
    · rw [dget?_removeDenylist, if_neg (by decide), dget?_dinsert,
        if_pos rfl]

/-- C5, witness: interface `br-zzz` against the empty registry yields
`unknown` in both Docker fields. -/
theorem C5_bridge_lookup_witness :
    dget? (removeDenylist (enrichDocker [("in", "br-zzz")] []))
        "DockerProject" = some "unknown" ∧
    dget? (removeDenylist (enrichDocker [("in", "br-zzz")] []))
        "DockerNetwork" = some "unknown" :=
  (C5_bridge_lookup [("in", "br-zzz")] [] (by rfl)).1 (by rfl)

/-- C6: removing the fixed denylist twice yields the same mapping as
removing it once, and popping an absent key is a no-op. -/
theorem C6_denylist_removal_idempotent (d : Dict) :
    removeDenylist (removeDenylist d) = removeDenylist d ∧
    ∀ k, dcontains d k = false → dpop d k = d := by
  constructor
  · simp only [removeDenylist]
    rw [foldPops_eq_filter, foldPops_eq_filter, List.filter_filter]
    apply List.filter_congr
    intro p _
    exact Bool.and_self _
  · intro k hk
    show List.filter (fun p => decide (p.1 ≠ k)) d = d
    apply List.filter_eq_self.mpr
    intro p hp
    simp only [decide_eq_true_eq]
    intro heq
    have hc : dcontains d k = true :=
      List.any_eq_true.mpr ⟨p, hp, by simp [heq]⟩
    rw [hk] at hc
    cases hc

/-- C6, witness: popping the absent key `len` leaves the dict intact. -/
theorem C6_denylist_witness :
    dpop [("spt", "443")] "len" = [("spt", "443")] :=
  (C6_denylist_removal_idempotent [("spt", "443")]).2 "len" (by rfl)

/-- C7: whenever the network enumeration fails — non-zero exit status or
any stdout line `json.loads` cannot parse — `get_docker_networks`
returns the empty registry with an error logged; it never propagates
the failure. -/
theorem C7_registry_load_failure (r : EnumResult)
    (h : (∃ msg, r = EnumResult.failure msg) ∨
      ∃ ls, r = EnumResult.output ls ∧ ls.any isBadLine = true) :
    get_docker_networks r = ([], true) := by
  rcases h with ⟨msg, rfl⟩ | ⟨ls, rfl, hbad⟩
  · rfl
  · simp [get_docker_networks, hbad]

/-- C7, witness: a single unparsable stdout line empties the registry
and logs the error. -/
theorem C7_registry_load_failure_witness :
    get_docker_networks (EnumResult.output [EnumLine.badJson]) =
      ([], true) :=
  C7_registry_load_failure _ (Or.inr ⟨[EnumLine.badJson], rfl, by rfl⟩)

/-- C8: for each enumeration entry the registry key is the first 12
characters of the identifier, and the stored project name is the part
after the first `=` of the first comma-separated label of the form
`com.docker.compose.project=<name>` (27 is the length of that label
tag), defaulting to the literal `"unknown"` when no such label
exists. -/
theorem C8_registry_entry (j : DockerNetJson) :
    (processEntry j).1 = sTake (j.ID.getD "") 12 ∧
    (∀ lab, (splitComma (j.Labels.getD "")).find?
        (fun l => sStartsWith l projectLabelTag) = some lab →
      (processEntry j).2.project = sDrop lab 27) ∧
    ((splitComma (j.Labels.getD "")).find?
        (fun l => sStartsWith l projectLabelTag) = none →
      (processEntry j).2.project = "unknown") := by
  refine ⟨rfl, ?_, ?_⟩
  · intro lab hfind
    have hproj : (processEntry j).2.project =
        labelProject (j.Labels.getD "") := rfl
    rw [hproj, labelProject_eq, hfind]
    have hs : sStartsWith lab projectLabelTag = true := by
      simpa using List.find?_some hfind
    exact splitEq1_of_tag lab hs
  · intro hfind
    have hproj : (processEntry j).2.project =
        labelProject (j.Labels.getD "") := rfl
    rw [hproj, labelProject_eq, hfind]

/-- C8, witness: a 16-character identifier is keyed by its first 12
characters and the project label in second position supplies the
project name `shop`. -/
theorem C8_registry_entry_witness :
    (processEntry ⟨some "0123456789abcdef", some "mynet",
        some "com.docker.compose.network=default,com.docker.compose.project=shop"⟩).1 =
      sTake "0123456789abcdef" 12 ∧
    (processEntry ⟨some "0123456789abcdef", some "mynet",
        some "com.docker.compose.network=default,com.docker.compose.project=shop"⟩).2.project =
      sDrop "com.docker.compose.project=shop" 27 :=
  ⟨(C8_registry_entry _).1,
   (C8_registry_entry _).2.1 "com.docker.compose.project=shop" (by rfl)⟩

/-- C9: in every field set produced from a line, a key being absent is
equivalent to lookup returning nothing, and a key bound to the empty
string still counts as present — absence and empty value are never
conflated. -/
theorem C9_fieldset_unambiguous (line : String) (d : Dict)
    (hx : extractFields line = some d) (k : String) :
    (dcontains d k = false ↔ dget? d k = none) ∧
    (dget? d k = some "" → dcontains d k = true) := by
  constructor
  · constructor
    · intro hf
      cases ho : dget? d k with
      | none => rfl
      | some v =>
          have hc := (dcontains_iff d k).mpr ⟨v, ho⟩
          rw [hf] at hc
          cases hc
    · intro hn
      cases hc : dcontains d k with
      | false => rfl
      | true =>
          rcases (dcontains_iff d k).mp hc with ⟨v, hv⟩
          rw [hn] at hv
          cases hv
  · intro h0
    exact (dcontains_iff d k).mpr ⟨"", h0⟩

/-- C9, witness: in the field set of `[UFW BLOCK] OUT= A=1`, the key
`out` is present with the empty-string value. -/
theorem C9_fieldset_unambiguous_witness :
    (dcontains [("out", ""), ("a", "1")] "out" = false ↔
      dget? [("out", ""), ("a", "1")] "out" = none) ∧
    (dget? [("out", ""), ("a", "1")] "out" = some "" →
      dcontains [("out", ""), ("a", "1")] "out" = true) :=
  C9_fieldset_unambiguous "[UFW BLOCK] OUT= A=1" _ (by rfl) "out"

/-- C10: the line `Oct 1 00:00:00 host kernel: [UFW BLOCK] LEN=60
TTL=64` — marker present, well-formed pairs present, every extracted
key on the denylist, non-bridge interface — parses to the empty mapping
(not `None`) for every registry, and since the monitor loop emits only
truthy results, it produces no output record. -/
theorem C10_denylist_only_no_output (nets : Registry) :
    parse_ufw_block_line denylistOnlyLine nets = some [] ∧
    monitorEmits denylistOnlyLine nets = false :=
  ⟨rfl, rfl⟩

end UfwBlockAnalyzer
